import Mathlib

/-!
Verification of the repository-analyzer API against its specification.

The TypeScript sources are embedded shallowly:
* JavaScript strings are modelled as Lean `String`s and the JavaScript string
  operations (`includes`, `startsWith`, `endsWith`, `trim`, `toUpperCase`,
  `slice`, regex suffix replaces and the unanchored owner/name regex match)
  are implemented explicitly on the underlying `List Char`.
* JavaScript exceptions are modelled with `Except String` carrying the thrown
  `Error` message; `try/catch` becomes a `match` on the `Except` value.
* External HTTP calls (GitHub, the LLM endpoint) are modelled as oracle
  inputs: the function receives the upstream response as an argument.
* Untrusted JSON values are modelled by the inductive `JSON`; JavaScript
  numbers by `JNum` (a rational, NaN, or a signed infinity).
-/

namespace RepoAnalyzer

/-! ## JavaScript string primitives (shared helpers) -/

/-- Substring test on character lists: JavaScript `hay.includes(needle)`. -/
def listContains (hay needle : List Char) : Bool :=
  match hay with
  | [] => needle.isPrefixOf ([] : List Char)
  | _ :: t => needle.isPrefixOf hay || listContains t needle

/-- JavaScript `s.includes(sub)`. -/
def strIncludes (s sub : String) : Bool :=
  listContains s.data sub.data

/-- JavaScript `s.startsWith(pre)`. -/
def strStartsWith (s pre : String) : Bool :=
  pre.data.isPrefixOf s.data

/-- JavaScript `s.endsWith(suf)` (suffix test via reversed prefix test). -/
def strEndsWith (s suf : String) : Bool :=
  suf.data.reverse.isPrefixOf s.data.reverse

/-- JavaScript `s.slice(0, n)`. -/
def strTake (s : String) (n : Nat) : String :=
  ⟨s.data.take n⟩

/-- JavaScript `s.toUpperCase()` (ASCII case mapping; all filenames compared
by the scorer are ASCII). -/
def jsToUpper (s : String) : String :=
  ⟨s.data.map Char.toUpper⟩

/-! ## Deterministic scorer (src/lib/scoring.ts)

Straight transcription of `calculateScore` and its four rule functions.
Each sequential `score += …` block becomes a sum of `if` terms. -/

structure ScoreBreakdown where
  documentation : Nat
  «structure» : Nat
  completeness : Nat
  engineering_maturity : Nat
  deriving Repr, DecidableEq

structure Scorecard where
  overall : Nat
  breakdown : ScoreBreakdown
  deriving Repr, DecidableEq

/-- Documentation score (0-25), based on README presence and length. -/
def calculateDocumentationScore (readme : String) : Nat :=
  (if readme.length > 0 then 10 else 0) +
  (if readme.length > 500 then 5 else 0) +
  (if readme.length > 2000 then 5 else 0) +
  (if readme.length > 5000 then 5 else 0)

/-- `files.some(...)` over the fixed dependency-manifest names. -/
def hasDependencyFile (files : List String) : Bool :=
  files.any fun file =>
    file == "package.json" ||
    file == "requirements.txt" ||
    file == "Cargo.toml" ||
    file == "go.mod" ||
    file == "pom.xml" ||
    file == "build.gradle"

/-- Structure score (0-25), based on file count and dependency files. -/
def calculateStructureScore (files : List String) : Nat :=
  (if files.length > 5 then 5 else 0) +
  (if files.length > 20 then 5 else 0) +
  (if files.length > 50 then 5 else 0) +
  (if hasDependencyFile files then 10 else 0)

/-- The test-file predicate used by the completeness rule. -/
def isTestFile (file : String) : Bool :=
  strIncludes file "/test/" ||
  strIncludes file "/__tests__/" ||
  strIncludes file ".test." ||
  strIncludes file ".spec." ||
  strIncludes file "_test." ||
  strEndsWith file "Test.java" ||
  strEndsWith file "Test.kt"

/-- Completeness score (0-20), based on presence of tests. -/
def calculateCompletenessScore (files : List String) : Nat :=
  (if (files.filter isTestFile).length > 0 then 10 else 0) +
  (if (files.filter isTestFile).length > 3 then 10 else 0)

/-- CI/CD detection used by the engineering-maturity rule. -/
def hasCICD (files : List String) : Bool :=
  files.any fun file =>
    strStartsWith file ".github/workflows/" ||
    file == ".gitlab-ci.yml" ||
    file == ".travis.yml" ||
    file == "circle.yml" ||
    file == ".circleci/config.yml"

/-- Config-example detection used by the engineering-maturity rule. -/
def hasConfigExample (files : List String) : Bool :=
  files.any fun file =>
    file == ".env.example" ||
    file == "config.example.json" ||
    file == "config.example.yml" ||
    strIncludes file ".example"

/-- LICENSE detection (case-insensitive) used by the engineering-maturity rule. -/
def hasLicense (files : List String) : Bool :=
  files.any fun file =>
    jsToUpper file == "LICENSE" ||
    jsToUpper file == "LICENSE.MD" ||
    jsToUpper file == "LICENSE.TXT"

/-- CONTRIBUTING/CHANGELOG detection used by the engineering-maturity rule. -/
def hasContributing (files : List String) : Bool :=
  files.any fun file =>
    jsToUpper file == "CONTRIBUTING.MD" ||
    jsToUpper file == "CHANGELOG.MD" ||
    jsToUpper file == "CHANGELOG.TXT"

/-- Engineering maturity score (0-30): CI/CD, config examples, license,
contributing docs. -/
def calculateEngineeringMaturityScore (files : List String) : Nat :=
  (if hasCICD files then 15 else 0) +
  (if hasConfigExample files then 5 else 0) +
  (if hasLicense files then 5 else 0) +
  (if hasContributing files then 5 else 0)

/-- `calculateScore`: the deterministic scorecard. -/
def calculateScore (readme : String) (files : List String) : Scorecard :=
  { overall :=
      calculateDocumentationScore readme +
      calculateStructureScore files +
      calculateCompletenessScore files +
      calculateEngineeringMaturityScore files
    breakdown :=
      { documentation := calculateDocumentationScore readme
        «structure» := calculateStructureScore files
        completeness := calculateCompletenessScore files
        engineering_maturity := calculateEngineeringMaturityScore files } }

/-! Bounds of the four sub-scores. -/

theorem documentation_le_25 (readme : String) :
    calculateDocumentationScore readme ≤ 25 := by
  unfold calculateDocumentationScore
  split_ifs <;> omega

theorem structure_le_25 (files : List String) :
    calculateStructureScore files ≤ 25 := by
  unfold calculateStructureScore
  split_ifs <;> omega

theorem completeness_le_20 (files : List String) :
    calculateCompletenessScore files ≤ 20 := by
  unfold calculateCompletenessScore
  split_ifs <;> omega

theorem engineering_le_30 (files : List String) :
    calculateEngineeringMaturityScore files ≤ 30 := by
  unfold calculateEngineeringMaturityScore
  split_ifs <;> omega

/-- **C1.** For every readme string and every file list, the `Scorecard`
returned by `calculateScore` satisfies
`overall = documentation + structure + completeness + engineering_maturity`
exactly, and `overall` lies in `[0, 100]`. -/
theorem calculateScore_overall_invariant (readme : String) (files : List String) :
    (calculateScore readme files).overall =
      (calculateScore readme files).breakdown.documentation +
      (calculateScore readme files).breakdown.«structure» +
      (calculateScore readme files).breakdown.completeness +
      (calculateScore readme files).breakdown.engineering_maturity ∧
    0 ≤ (calculateScore readme files).overall ∧
    (calculateScore readme files).overall ≤ 100 := by
  refine ⟨rfl, Nat.zero_le _, ?_⟩
  have h1 := documentation_le_25 readme
  have h2 := structure_le_25 files
  have h3 := completeness_le_20 files
  have h4 := engineering_le_30 files
  simp only [calculateScore]
  omega

/-- **C2.** The documentation sub-score is monotone non-decreasing in
`readme.length`, lies in `[0, 25]`, and takes exactly the values
0 / 10 / 15 / 20 / 25 on the bands `0`, `1–500`, `501–2000`, `2001–5000`,
`> 5000`. -/
theorem documentation_score_spec :
    (∀ r₁ r₂ : String, r₁.length ≤ r₂.length →
      calculateDocumentationScore r₁ ≤ calculateDocumentationScore r₂) ∧
    (∀ r : String, calculateDocumentationScore r ≤ 25) ∧
    (∀ r : String, r.length = 0 → calculateDocumentationScore r = 0) ∧
    (∀ r : String, 1 ≤ r.length → r.length ≤ 500 →
      calculateDocumentationScore r = 10) ∧
    (∀ r : String, 501 ≤ r.length → r.length ≤ 2000 →
      calculateDocumentationScore r = 15) ∧
    (∀ r : String, 2001 ≤ r.length → r.length ≤ 5000 →
      calculateDocumentationScore r = 20) ∧
    (∀ r : String, 5000 < r.length → calculateDocumentationScore r = 25) := by
  refine ⟨?_, fun r => documentation_le_25 r, ?_, ?_, ?_, ?_, ?_⟩
  · intro r₁ r₂ h
    unfold calculateDocumentationScore
    split_ifs <;> omega
  · intro r h
    unfold calculateDocumentationScore
    split_ifs <;> omega
  · intro r h h'
    unfold calculateDocumentationScore
    split_ifs <;> omega
  · intro r h h'
    unfold calculateDocumentationScore
    split_ifs <;> omega
  · intro r h h'
    unfold calculateDocumentationScore
    split_ifs <;> omega
  · intro r h
    unfold calculateDocumentationScore
    split_ifs <;> omega

/-- Length of a readme built by replication (used to instantiate witnesses). -/
theorem length_mkReplicate (n : Nat) (c : Char) :
    (⟨List.replicate n c⟩ : String).length = n := by
  rw [String.length]; exact List.length_replicate n c

/-- Witness for C2: the theorem evaluated at concrete readmes on each band
boundary. -/
theorem documentation_score_spec_witness :
    calculateDocumentationScore ⟨List.replicate 500 'a'⟩ ≤
      calculateDocumentationScore ⟨List.replicate 501 'a'⟩ ∧
    calculateDocumentationScore "" = 0 ∧
    calculateDocumentationScore ⟨List.replicate 500 'a'⟩ = 10 ∧
    calculateDocumentationScore ⟨List.replicate 501 'a'⟩ = 15 ∧
    calculateDocumentationScore ⟨List.replicate 2001 'a'⟩ = 20 ∧
    calculateDocumentationScore ⟨List.replicate 5001 'a'⟩ = 25 := by
  have h := documentation_score_spec
  exact ⟨h.1 _ _ (by rw [length_mkReplicate, length_mkReplicate]; try omega),
    h.2.2.1 _ (by rfl),
    h.2.2.2.1 _ (by rw [length_mkReplicate]; try omega) (by rw [length_mkReplicate]; try omega),
    h.2.2.2.2.1 _ (by rw [length_mkReplicate]; try omega) (by rw [length_mkReplicate]; try omega),
    h.2.2.2.2.2.1 _ (by rw [length_mkReplicate]; try omega) (by rw [length_mkReplicate]; try omega),
    h.2.2.2.2.2.2 _ (by rw [length_mkReplicate]; try omega)⟩

/-! ## URL parser (src/lib/github.ts, `parseGitHubUrl`)

`url.replace(/\.git$/, '').replace(/\/$/, '')` strips one trailing `.git`
and then one trailing slash.  `cleanUrl.match(/github\.com\/([^\/]+)\/([^\/]+)/)`
is an unanchored search: the leftmost position where the literal
`github.com/` is followed by a nonempty slash-free run, a slash, and a
second nonempty slash-free run wins; the two runs are the capture groups. -/

structure RepoInfo where
  owner : String
  name : String
  deriving Repr, DecidableEq

/-- `s.replace(/\.git$/, '')` / `s.replace(/\/$/, '')`: drop the suffix once
if present. -/
def replaceSuffix (l suf : List Char) : List Char :=
  if suf.reverse.isPrefixOf l.reverse then l.take (l.length - suf.length) else l

/-- Attempt the regex `github\.com\/([^\/]+)\/([^\/]+)` at the current
position; on success return the two capture groups. -/
def matchGithubHere (l : List Char) : Option (List Char × List Char) :=
  if ("github.com/".data).isPrefixOf l then
    let rest := l.drop 11
    let o := rest.takeWhile (fun c => c != '/')
    if o.isEmpty then none
    else
      match rest.drop o.length with
      | '/' :: rest2 =>
        let n := rest2.takeWhile (fun c => c != '/')
        if n.isEmpty then none else some (o, n)
      | _ => none
  else none

/-- Unanchored regex search: try every position left to right. -/
def findGithubMatch : List Char → Option (List Char × List Char)
  | [] => none
  | c :: rest =>
    match matchGithubHere (c :: rest) with
    | some r => some r
    | none => findGithubMatch rest

/-- `parseGitHubUrl`.  The inner `throw new Error('Invalid GitHub URL format')`
is re-thrown by the surrounding `catch` as the single observable message. -/
def parseGitHubUrl (url : String) : Except String RepoInfo :=
  let cleanUrl := replaceSuffix (replaceSuffix url.data (".git".data)) ("/".data)
  match findGithubMatch cleanUrl with
  | some (o, n) => .ok { owner := ⟨o⟩, name := ⟨n⟩ }
  | none => .error "Failed to parse GitHub URL. Expected format: https://github.com/owner/repo"

/-! ## File-tree fetcher (src/lib/github.ts, `fetchFileTree`)

The upstream HTTP responses are modelled as an oracle from branch name to
`Option TreeResp` (`none` = the network call itself rejected).  A 2xx body is
modelled as the already-decoded list of tree items; JSON decoding of a
successful reply is outside every claim. -/

structure TreeItem where
  type : String
  path : String
  deriving Repr, DecidableEq

structure TreeResp where
  status : Nat
  tree : List TreeItem
  deriving Repr, DecidableEq

/-- `response.ok`: status in [200, 300). -/
def respOk (status : Nat) : Bool :=
  200 ≤ status && status < 300

/-- The message thrown on a 403 GitHub response. -/
def rateLimitMsg : String :=
  "GitHub API rate limit exceeded or repository is private"

/-- Blob-path extraction from a successful tree reply, capped at 500 files. -/
def extractTreeFiles (tree : List TreeItem) : List String :=
  ((tree.filter (fun item => item.type == "blob")).map (fun item => item.path)).take 500

/-- Outcome of one iteration of the branch loop. -/
inductive BranchOutcome where
  | done (files : List String)
  | thrown (msg : String)
  | nextBranch
  deriving Repr, DecidableEq

/-- One iteration of `for (const branch of branches)`: a 404 `continue`s; a
thrown error is re-thrown by the `catch` only when its message contains
`'rate limit'`, otherwise the loop `continue`s; a network rejection has no
`'rate limit'` in its message and also `continue`s. -/
def branchStep (resp : Option TreeResp) : BranchOutcome :=
  match resp with
  | none => .nextBranch
  | some r =>
    if r.status == 404 then .nextBranch
    else if !respOk r.status then
      let msg := if r.status == 403 then rateLimitMsg
                 else "GitHub API error: " ++ toString r.status
      if strIncludes msg "rate limit" then .thrown msg else .nextBranch
    else .done (extractTreeFiles r.tree)

/-- The branch loop body of `fetchFileTree`. -/
def fetchFileTreeLoop (resp : String → Option TreeResp) : List String → Except String (List String)
  | [] => .error "Repository not found or no accessible branches"
  | b :: rest =>
    match branchStep (resp b) with
    | .done files => .ok files
    | .thrown msg => .error msg
    | .nextBranch => fetchFileTreeLoop resp rest

/-- `fetchFileTree`: try `main`, then `master`. -/
def fetchFileTree (resp : String → Option TreeResp) : Except String (List String) :=
  fetchFileTreeLoop resp ["main", "master"]

/-! ## Claims C3 and C4 -/

/-- **C3 counterexample.** On the exact input
`"https://github.com/a/b.git/"` the parser does NOT return
`{owner: "a", name: "b"}`: the `.git`-suffix replace runs before the
trailing-slash replace, so `.git` survives inside the matched name. -/
theorem parseGitHubUrl_gitSlash_not_claimed :
    parseGitHubUrl "https://github.com/a/b.git/" ≠
      Except.ok { owner := "a", name := "b" } := by
  have h : parseGitHubUrl "https://github.com/a/b.git/" =
      Except.ok { owner := "a", name := "b.git" } := rfl
  rw [h]
  intro hEq
  exact absurd (Except.ok.inj hEq) (by decide)

/-- **C3 (amended).** `parseGitHubUrl "https://github.com/a/b.git/"` returns
`{owner: "a", name: "b.git"}`: the trailing slash is stripped, but the
`.git` suffix is not, because `.git`-stripping happens before
slash-stripping. -/
theorem parseGitHubUrl_gitSlash :
    parseGitHubUrl "https://github.com/a/b.git/" =
      Except.ok { owner := "a", name := "b.git" } := rfl

/-- **C4.** `fetchFileTree` tries `main` first and `master` second; two 404s
raise the repository-not-found error; a 403 on the first attempt raises the
rate-limited error immediately, whatever the `master` response would have
been. -/
theorem fetchFileTree_branch_fallback :
    (∀ t₁ t₂ : List TreeItem,
      fetchFileTree (fun b => if b == "main" then some ⟨404, t₁⟩ else some ⟨404, t₂⟩) =
        .error "Repository not found or no accessible branches") ∧
    (∀ (t : List TreeItem) (master : Option TreeResp),
      fetchFileTree (fun b => if b == "main" then some ⟨403, t⟩ else master) =
        .error rateLimitMsg) ∧
    (∀ (t : List TreeItem) (master : Option TreeResp),
      fetchFileTree (fun b => if b == "main" then some ⟨200, t⟩ else master) =
        .ok (extractTreeFiles t)) ∧
    (∀ t₂ : List TreeItem,
      fetchFileTree (fun b => if b == "main" then some ⟨404, []⟩ else some ⟨200, t₂⟩) =
        .ok (extractTreeFiles t₂)) := by
  refine ⟨fun t₁ t₂ => ?_, fun t master => ?_, fun t master => ?_, fun t₂ => ?_⟩ <;>
    simp [fetchFileTree, fetchFileTreeLoop, branchStep, respOk, rateLimitMsg, strIncludes,
      listContains]

/-! ## Claim C9: the owner/name match is unanchored

Helper lemmas about `List.isPrefixOf` and the leftmost-match search. -/

theorem isPrefixOf_self_append (l t : List Char) : l.isPrefixOf (l ++ t) = true := by
  induction l with
  | nil => simp [List.isPrefixOf]
  | cons c r ih => simp [List.isPrefixOf, ih]

theorem isPrefixOf_length_le :
    ∀ l m : List Char, l.isPrefixOf m = true → l.length ≤ m.length := by
  intro l
  induction l with
  | nil => simp
  | cons a as ih =>
    intro m h
    cases m with
    | nil => simp [List.isPrefixOf] at h
    | cons b bs =>
      simp only [List.isPrefixOf, Bool.and_eq_true] at h
      have := ih bs h.2
      simp only [List.length_cons]
      omega

theorem isPrefixOf_eq_of_length_le :
    ∀ l m : List Char, l.isPrefixOf m = true → m.length ≤ l.length → l = m := by
  intro l
  induction l with
  | nil =>
    intro m _ hlen
    cases m with
    | nil => rfl
    | cons b bs => simp at hlen
  | cons a as ih =>
    intro m h hlen
    cases m with
    | nil => simp [List.isPrefixOf] at h
    | cons b bs =>
      simp only [List.isPrefixOf, Bool.and_eq_true, beq_iff_eq] at h
      have : as = bs := ih bs h.2 (by simp at hlen; omega)
      rw [h.1, this]

theorem append_isPrefixOf_left :
    ∀ l₁ l₂ m : List Char, (l₁ ++ l₂).isPrefixOf m = true → l₁.isPrefixOf m = true := by
  intro l₁
  induction l₁ with
  | nil => simp
  | cons a as ih =>
    intro l₂ m h
    cases m with
    | nil => simp [List.isPrefixOf] at h
    | cons b bs =>
      simp only [List.cons_append, List.isPrefixOf, Bool.and_eq_true] at h ⊢
      exact ⟨h.1, ih l₂ bs h.2⟩

theorem isPrefixOf_append_iff :
    ∀ (A l B : List Char), l.isPrefixOf (A ++ B) = true ↔
      (l.isPrefixOf A = true ∨
        (A.isPrefixOf l = true ∧ (l.drop A.length).isPrefixOf B = true)) := by
  intro A
  induction A with
  | nil =>
    intro l B
    cases l with
    | nil => simp [List.isPrefixOf]
    | cons c r => simp [List.isPrefixOf]
  | cons a as ih =>
    intro l B
    cases l with
    | nil => simp [List.isPrefixOf]
    | cons c r =>
      simp only [List.cons_append, List.isPrefixOf, Bool.and_eq_true, beq_iff_eq,
        List.length_cons, List.drop_succ_cons, List.append_eq]
      rw [ih r B]
      constructor
      · rintro ⟨hca, h | ⟨h1, h2⟩⟩
        · exact Or.inl ⟨hca, h⟩
        · exact Or.inr ⟨⟨hca.symm, h1⟩, h2⟩
      · rintro (⟨hca, h⟩ | ⟨⟨hac, h1⟩, h2⟩)
        · exact ⟨hca, Or.inl h⟩
        · exact ⟨hac.symm, Or.inr ⟨h1, h2⟩⟩

theorem takeWhile_all_true {p : Char → Bool} :
    ∀ l : List Char, (∀ c ∈ l, p c = true) → l.takeWhile p = l := by
  intro l
  induction l with
  | nil => intro _; rfl
  | cons c r ih =>
    intro h
    rw [List.takeWhile_cons, if_pos (h c (by simp)), ih fun d hd => h d (by simp [hd])]

/-- The search succeeds at a position where the full pattern starts,
capturing the two slash-free runs. -/
theorem matchGithubHere_hit (o n : List Char) (ho : o ≠ []) (hn : n ≠ [])
    (ho' : ∀ c ∈ o, c ≠ '/') (hn' : ∀ c ∈ n, c ≠ '/') :
    matchGithubHere ("github.com/".data ++ (o ++ '/' :: n)) = some (o, n) := by
  have hpre := isPrefixOf_self_append ("github.com/".data) (o ++ '/' :: n)
  have hdrop : ("github.com/".data ++ (o ++ '/' :: n)).drop 11 = o ++ '/' :: n := by
    rw [show (11 : Nat) = ("github.com/".data).length from rfl, List.drop_left]
  have hto : (o ++ '/' :: n).takeWhile (fun c => c != '/') = o := by
    rw [List.takeWhile_append]
    rw [takeWhile_all_true o (fun c hc => by simp [ho' c hc])]
    simp [List.takeWhile_cons]
  have htn : n.takeWhile (fun c => c != '/') = n :=
    takeWhile_all_true n (fun c hc => by simp [hn' c hc])
  unfold matchGithubHere
  rw [if_pos hpre]
  simp only [hdrop, hto]
  rw [if_neg (by simp [List.isEmpty_iff, ho])]
  have hdrop2 : (o ++ '/' :: n).drop o.length = '/' :: n := List.drop_left o ('/' :: n)
  simp only [hdrop2, htn]
  rw [if_neg (by simp [List.isEmpty_iff, hn])]

/-- Positions strictly inside a prefix that does not contain `github.com`
cannot start a match, so the search skips past that prefix. -/
theorem findGithubMatch_skip :
    ∀ (p tail : List Char), listContains p "github.com".data = false →
      findGithubMatch (p ++ ("github.com/".data ++ tail)) =
        findGithubMatch ("github.com/".data ++ tail) := by
  intro p
  induction p with
  | nil => intro tail _; rfl
  | cons c p' ih =>
    intro tail h
    rw [listContains] at h
    simp only [Bool.or_eq_false_iff] at h
    have hnone : matchGithubHere ((c :: p') ++ ("github.com/".data ++ tail)) = none := by
      unfold matchGithubHere
      rw [if_neg ?_]
      intro hcond
      rcases (isPrefixOf_append_iff (c :: p') ("github.com/".data)
          ("github.com/".data ++ tail)).mp hcond with h1 | ⟨h2, h3⟩
      · have hgp : (['g', 'i', 't', 'h', 'u', 'b', '.', 'c', 'o', 'm'] : List Char).isPrefixOf
            (c :: p') = true :=
          append_isPrefixOf_left ['g', 'i', 't', 'h', 'u', 'b', '.', 'c', 'o', 'm'] ['/'] _ h1
        rw [h.1] at hgp
        exact Bool.false_ne_true hgp
      · have hk1 : 1 ≤ (c :: p').length := by simp
        have hk2 : (c :: p').length ≤ 11 := by
          have := isPrefixOf_length_le _ _ h2
          simpa using this
        by_cases h11 : (c :: p').length = 11
        · have heq : c :: p' = "github.com/".data :=
            isPrefixOf_eq_of_length_le _ _ h2 (by rw [h11]; decide)
          have hgp : (['g', 'i', 't', 'h', 'u', 'b', '.', 'c', 'o', 'm'] : List Char).isPrefixOf
              (c :: p') = true := by
            rw [heq]; decide
          rw [h.1] at hgp
          exact Bool.false_ne_true hgp
        · have hk10 : (c :: p').length ≤ 10 := by omega
          generalize hkk : (c :: p').length = k at h3 hk10 hk1
          interval_cases k <;>
            simp only [show "github.com/".data =
              ['g', 'i', 't', 'h', 'u', 'b', '.', 'c', 'o', 'm', '/'] from rfl,
              List.drop_succ_cons, List.drop_zero, List.cons_append,
              List.isPrefixOf, Bool.and_eq_true, beq_iff_eq] at h3 <;>
            simp at h3
    rw [List.cons_append] at hnone ⊢
    rw [findGithubMatch, hnone]
    exact ih tail h.2

/-- A successful match at the head position is what the search returns. -/
theorem findGithubMatch_of_hit (c : Char) (rest : List Char)
    (r : List Char × List Char) (h : matchGithubHere (c :: rest) = some r) :
    findGithubMatch (c :: rest) = some r := by
  rw [findGithubMatch, h]

/-- **C9 counterexample.** The input `"github.com/" ++ "a" ++ "/" ++ ".git"`
contains a `github.com/<owner>/<name>` substring (owner `"a"`, name
`".git"`), yet parsing fails: the `.git`-suffix replace destroys the only
match before the regex runs. -/
theorem parseGitHubUrl_dotgit_name_fails :
    parseGitHubUrl ("github.com/" ++ "a" ++ "/" ++ ".git") =
      .error "Failed to parse GitHub URL. Expected format: https://github.com/owner/repo" :=
  rfl

/-- **C9 (amended).** The match is unanchored: for every input of the form
`p ++ "github.com/" ++ o ++ "/" ++ n` with `o`, `n` nonempty and slash-free,
`github.com` not occurring in `p`, and the whole input not ending in `.git`,
`parseGitHubUrl` succeeds and returns `{owner: o, name: n}` — the pattern
need not be at the start of the string.  (The unrestricted claim fails when
the name ends in `.git` or an earlier match exists.) -/
theorem parseGitHubUrl_unanchored (p o n : String)
    (ho : o.data ≠ []) (hn : n.data ≠ [])
    (ho' : ∀ c ∈ o.data, c ≠ '/') (hn' : ∀ c ∈ n.data, c ≠ '/')
    (hp : listContains p.data ("github.com".data) = false)
    (hgit : strEndsWith (p ++ "github.com/" ++ o ++ "/" ++ n) ".git" = false) :
    parseGitHubUrl (p ++ "github.com/" ++ o ++ "/" ++ n) =
      .ok { owner := o, name := n } := by
  have hdata : (p ++ "github.com/" ++ o ++ "/" ++ n).data =
      p.data ++ ("github.com/".data ++ (o.data ++ '/' :: n.data)) := by
    simp [String.data_append, List.append_assoc]
  obtain ⟨cl, rl, hrev⟩ : ∃ cl rl, n.data.reverse = cl :: rl := by
    cases h : n.data.reverse with
    | nil => exact absurd (List.reverse_eq_nil_iff.mp h) hn
    | cons cl rl => exact ⟨cl, rl, rfl⟩
  have hcl : cl ≠ '/' := by
    have : cl ∈ n.data.reverse := by rw [hrev]; simp
    exact hn' cl (List.mem_reverse.mp this)
  have hrevfull : ((p ++ "github.com/" ++ o ++ "/" ++ n).data).reverse =
      cl :: (rl ++ ('/' :: (o.data.reverse ++
        (("github.com/".data).reverse ++ p.data.reverse)))) := by
    rw [hdata]
    simp only [List.reverse_append, List.reverse_cons, List.reverse_nil, hrev,
      List.append_assoc, List.cons_append, List.nil_append]
  have hslash : (['/'] : List Char).reverse.isPrefixOf
      ((p ++ "github.com/" ++ o ++ "/" ++ n).data).reverse = false := by
    rw [hrevfull]
    simp only [List.reverse_cons, List.reverse_nil, List.nil_append, List.isPrefixOf,
      Bool.and_eq_true, beq_iff_eq]
    simp [Ne.symm hcl]
  have hgitL : (['.', 'g', 'i', 't'] : List Char).reverse.isPrefixOf
      ((p ++ "github.com/" ++ o ++ "/" ++ n).data).reverse = false := hgit
  have hfind : findGithubMatch ("github.com/".data ++ (o.data ++ '/' :: n.data)) =
      some (o.data, n.data) :=
    findGithubMatch_of_hit 'g' ("ithub.com/".data ++ (o.data ++ '/' :: n.data)) _
      (matchGithubHere_hit o.data n.data ho hn ho' hn')
  simp only [parseGitHubUrl, replaceSuffix, hgitL, hslash, Bool.false_eq_true, if_false]
  rw [hdata, findGithubMatch_skip p.data _ hp, hfind]

/-- Witness for C9 (amended): the spec's adversarial example
`"https://evil.example/github.com/a/b"` parses to `{owner: "a", name: "b"}`. -/
theorem parseGitHubUrl_unanchored_witness :
    parseGitHubUrl ("https://evil.example/" ++ "github.com/" ++ "a" ++ "/" ++ "b") =
      .ok { owner := "a", name := "b" } :=
  parseGitHubUrl_unanchored "https://evil.example/" "a" "b"
    (by decide) (by decide) (by decide) (by decide) (by decide) (by decide)

/-! ## Claim C8: the 60-file scenario -/

theorem filter_length_mono {p q : String → Bool} (h : ∀ f, p f = true → q f = true) :
    ∀ files : List String, (files.filter p).length ≤ (files.filter q).length := by
  intro files
  induction files with
  | nil => simp
  | cons f rest ih =>
    simp only [List.filter_cons]
    cases hp : p f with
    | false =>
      cases hq : q f with
      | false => simpa using ih
      | true => simp; omega
    | true => simp [h f hp]; omega

/-- Filler paths that trigger none of the scoring rules. -/
def plainFiller (k : Nat) : List String :=
  (List.range k).map (fun i => "file" ++ toString i ++ ".txt")

/-- A 60-file list containing the four paths named by the claim (and four
`.test.` files), but no dependency manifest. -/
def c8Files : List String :=
  [".github/workflows/ci.yml", "LICENSE", "CONTRIBUTING.md",
   "a1.test.js", "a2.test.js", "a3.test.js", "a4.test.js"] ++ plainFiller 53

/-- **C8 counterexample.** `c8Files` is a list of 60 distinct paths that
includes `.github/workflows/ci.yml`, `LICENSE`, `CONTRIBUTING.md` and 4
files containing `.test.`, yet with a readme of length 6000 the scorecard is
not the claimed one: no dependency manifest is present, so structure is 15
and overall is 85. -/
theorem calculateScore_scenario_cex :
    calculateScore ⟨List.replicate 6000 'a'⟩ c8Files ≠
      { overall := 95,
        breakdown := { documentation := 25, «structure» := 25, completeness := 20,
                       engineering_maturity := 25 } } := by
  have hstr : calculateStructureScore c8Files = 15 := by decide
  intro hEq
  have h := congrArg (fun s => s.breakdown.«structure») hEq
  simp only [calculateScore] at h
  rw [hstr] at h
  exact absurd h (by decide)

/-- **C8 (amended).** For every readme of length 6000 and every list of 60
file paths that includes `package.json`, `.github/workflows/ci.yml`,
`LICENSE` and `CONTRIBUTING.md`, contains at least 4 paths containing
`.test.`, and contains no path containing `.example`, `calculateScore`
returns exactly `{documentation: 25, structure: 25, completeness: 20,
engineering_maturity: 25, overall: 95}`. -/
theorem calculateScore_scenario (readme : String) (files : List String)
    (hreadme : readme.length = 6000)
    (hcount : files.length = 60)
    (hpkg : "package.json" ∈ files)
    (hci : ".github/workflows/ci.yml" ∈ files)
    (hlic : "LICENSE" ∈ files)
    (hcon : "CONTRIBUTING.md" ∈ files)
    (htest : 4 ≤ (files.filter (fun f => strIncludes f ".test.")).length)
    (hex : ∀ f ∈ files, strIncludes f ".example" = false) :
    calculateScore readme files =
      { overall := 95,
        breakdown := { documentation := 25, «structure» := 25, completeness := 20,
                       engineering_maturity := 25 } } := by
  have hdoc : calculateDocumentationScore readme = 25 := by
    simp [calculateDocumentationScore, hreadme]
  have hdep : hasDependencyFile files = true :=
    List.any_eq_true.mpr ⟨"package.json", hpkg, by decide⟩
  have hstr : calculateStructureScore files = 25 := by
    simp [calculateStructureScore, hcount, hdep]
  have htest' : 3 < (files.filter isTestFile).length := by
    have hmono := filter_length_mono
      (p := fun f => strIncludes f ".test.") (q := isTestFile)
      (fun f hf => by simp [isTestFile, hf]) files
    omega
  have hcom : calculateCompletenessScore files = 20 := by
    rw [calculateCompletenessScore, if_pos (by omega), if_pos htest']
  have hcicd : hasCICD files = true :=
    List.any_eq_true.mpr ⟨".github/workflows/ci.yml", hci, by decide⟩
  have hnoex : hasConfigExample files = false := by
    rw [hasConfigExample]
    rw [List.any_eq_false]
    intro f hf
    have h1 := hex f hf
    simp only [Bool.or_eq_true, not_or, Bool.not_eq_true]
    refine ⟨⟨⟨?_, ?_⟩, ?_⟩, h1⟩
    · cases hq : f == ".env.example" with
      | false => rfl
      | true =>
        rw [show f = ".env.example" by simpa using hq] at h1
        exact absurd h1 (by decide)
    · cases hq : f == "config.example.json" with
      | false => rfl
      | true =>
        rw [show f = "config.example.json" by simpa using hq] at h1
        exact absurd h1 (by decide)
    · cases hq : f == "config.example.yml" with
      | false => rfl
      | true =>
        rw [show f = "config.example.yml" by simpa using hq] at h1
        exact absurd h1 (by decide)
  have hlic' : hasLicense files = true :=
    List.any_eq_true.mpr ⟨"LICENSE", hlic, by decide⟩
  have hcon' : hasContributing files = true :=
    List.any_eq_true.mpr ⟨"CONTRIBUTING.md", hcon, by decide⟩
  have hem : calculateEngineeringMaturityScore files = 25 := by
    rw [calculateEngineeringMaturityScore, hcicd, hnoex, hlic', hcon']
    decide
  rw [calculateScore, hdoc, hstr, hcom, hem]

/-- A 60-file list satisfying all hypotheses of the amended C8 scenario. -/
def c8GoodFiles : List String :=
  ["package.json", ".github/workflows/ci.yml", "LICENSE", "CONTRIBUTING.md",
   "a1.test.js", "a2.test.js", "a3.test.js", "a4.test.js"] ++ plainFiller 52

/-- Witness for C8 (amended): the scenario evaluated on a concrete 60-file
list. -/
theorem calculateScore_scenario_witness :
    calculateScore ⟨List.replicate 6000 'a'⟩ c8GoodFiles =
      { overall := 95,
        breakdown := { documentation := 25, «structure» := 25, completeness := 20,
                       engineering_maturity := 25 } } :=
  calculateScore_scenario ⟨List.replicate 6000 'a'⟩ c8GoodFiles
    (length_mkReplicate 6000 'a') (by decide) (by decide) (by decide)
    (by decide) (by decide) (by decide) (by decide)

/-! ## Untrusted JSON values and JavaScript number coercion

`JSON.parse` output is modelled by `JSON`; JavaScript numbers by `JNum`
(NaN and the signed infinities arise from coercing non-numeric values). -/

inductive JSON where
  | null
  | bool (b : Bool)
  | num (q : ℚ)
  | str (s : String)
  | arr (elems : List JSON)
  | obj (fields : List (String × JSON))

inductive JNum where
  | nan
  | inf
  | negInf
  | val (q : ℚ)
  deriving Repr, DecidableEq

/-- `Math.min`: NaN-propagating minimum. -/
def jmin : JNum → JNum → JNum
  | .nan, _ => .nan
  | _, .nan => .nan
  | .negInf, _ => .negInf
  | _, .negInf => .negInf
  | .inf, y => y
  | x, .inf => x
  | .val a, .val b => .val (if a ≤ b then a else b)

/-- `Math.max`: NaN-propagating maximum. -/
def jmax : JNum → JNum → JNum
  | .nan, _ => .nan
  | _, .nan => .nan
  | .inf, _ => .inf
  | _, .inf => .inf
  | .negInf, y => y
  | x, .negInf => x
  | .val a, .val b => .val (if a ≤ b then b else a)

/-- JavaScript `+` on numbers. -/
def jadd : JNum → JNum → JNum
  | .nan, _ => .nan
  | _, .nan => .nan
  | .inf, .negInf => .nan
  | .negInf, .inf => .nan
  | .inf, _ => .inf
  | _, .inf => .inf
  | .negInf, _ => .negInf
  | _, .negInf => .negInf
  | .val a, .val b => .val (a + b)

/-- The whitespace set trimmed by `String.prototype.trim` and skipped by
`ToNumber` (ASCII whitespace plus NBSP; the rarer Unicode space characters
never occur in the strings any claim touches). -/
def isJsWsChar (c : Char) : Bool :=
  c == ' ' || c == '\t' || c == '\n' || c == '\r' ||
  c == '\x0b' || c == '\x0c' || c == ' '

/-- JavaScript `s.trim()`. -/
def jsTrimList (l : List Char) : List Char :=
  ((l.dropWhile isJsWsChar).reverse.dropWhile isJsWsChar).reverse

/-- Value of a digit run (most significant first). -/
def digitsVal : List Char → Nat → Nat
  | [], acc => acc
  | c :: r, acc => digitsVal r (acc * 10 + (c.toNat - 48))

/-- Value of a hex digit, if any. -/
def hexDigitVal (c : Char) : Option Nat :=
  if c.isDigit then some (c.toNat - 48)
  else if 'a' ≤ c && c ≤ 'f' then some (c.toNat - 87)
  else if 'A' ≤ c && c ≤ 'F' then some (c.toNat - 55)
  else none

def hexVal : List Char → Nat → Option Nat
  | [], acc => some acc
  | c :: r, acc =>
    match hexDigitVal c with
    | some d => hexVal r (acc * 16 + d)
    | none => none

/-- Exponent part of a decimal literal: optional sign and a digit run. -/
def parseExpPart (l : List Char) : Option Int :=
  match l with
  | '+' :: d =>
    if d ≠ [] && d.all Char.isDigit then some (digitsVal d 0 : Int) else none
  | '-' :: d =>
    if d ≠ [] && d.all Char.isDigit then some (-(digitsVal d 0 : Int)) else none
  | d =>
    if d ≠ [] && d.all Char.isDigit then some (digitsVal d 0 : Int) else none

/-- Unsigned decimal literal: `Digits [. Digits] [e Digits]` or
`. Digits [e Digits]`. -/
def parseDecimal (l : List Char) : Option ℚ :=
  let intPart := l.takeWhile Char.isDigit
  let rest := l.drop intPart.length
  match rest with
  | [] => if intPart.isEmpty then none else some (digitsVal intPart 0 : ℚ)
  | '.' :: r2 =>
    let fracPart := r2.takeWhile Char.isDigit
    let rest2 := r2.drop fracPart.length
    if intPart.isEmpty && fracPart.isEmpty then none
    else
      let mant : ℚ := (digitsVal intPart 0 : ℚ) +
        (digitsVal fracPart 0 : ℚ) / (10 : ℚ) ^ fracPart.length
      match rest2 with
      | [] => some mant
      | 'e' :: r3 => (parseExpPart r3).map (fun e => mant * (10 : ℚ) ^ e)
      | 'E' :: r3 => (parseExpPart r3).map (fun e => mant * (10 : ℚ) ^ e)
      | _ => none
  | 'e' :: r3 =>
    if intPart.isEmpty then none
    else (parseExpPart r3).map (fun e => (digitsVal intPart 0 : ℚ) * (10 : ℚ) ^ e)
  | 'E' :: r3 =>
    if intPart.isEmpty then none
    else (parseExpPart r3).map (fun e => (digitsVal intPart 0 : ℚ) * (10 : ℚ) ^ e)
  | _ => none

def parseSignedDecimal (r : List Char) (neg : Bool) : JNum :=
  if r = "Infinity".data then (if neg then .negInf else .inf)
  else
    match parseDecimal r with
    | some q => .val (if neg then -q else q)
    | none => .nan

/-- `ToNumber` on strings: trimmed empty string is 0; otherwise an optionally
signed decimal literal, `Infinity`, or an unsigned hex literal; anything else
is NaN.  (Octal/binary `0o`/`0b` literals are omitted; no claim touches
them.) -/
def strToNum (s : String) : JNum :=
  match jsTrimList s.data with
  | [] => .val 0
  | '0' :: 'x' :: r => match hexVal r 0 with | some v => .val (v : ℚ) | none => .nan
  | '0' :: 'X' :: r => match hexVal r 0 with | some v => .val (v : ℚ) | none => .nan
  | '+' :: r => parseSignedDecimal r false
  | '-' :: r => parseSignedDecimal r true
  | r => parseSignedDecimal r false

/-- `ToNumber` on a JavaScript value.  An array coerces through its joined
string form: `[]` is 0, a one-element array coerces like its element (except
booleans, whose string forms are not numeric), and two or more elements
always contain a comma, hence NaN; objects coerce through
`"[object Object]"`, hence NaN. -/
def toNumber : JSON → JNum
  | .null => .val 0
  | .bool b => .val (if b then 1 else 0)
  | .num q => .val q
  | .str s => strToNum s
  | .obj _ => .nan
  | .arr [] => .val 0
  | .arr [.bool _] => .nan
  | .arr [x] => toNumber x
  | .arr _ => .nan

/-! ## Answer evaluator validation (src/lib/evaluation.ts) -/

/-- Assoc-list field lookup (objects produced by `JSON.parse` have unique
keys, duplicates having been collapsed by the parser). -/
def lookupField : List (String × JSON) → String → Option JSON
  | [], _ => none
  | (k', v) :: rest, k => if k' == k then some v else lookupField rest k

/-- Property read `v.k` on a non-null value: objects look the key up, every
other value yields `undefined` (`none`). -/
def jsonFieldOpt (v : JSON) (k : String) : Option JSON :=
  match v with
  | .obj fields => lookupField fields k
  | _ => none

/-- Property read `v.k`: throws a `TypeError` exactly when `v` is `null`. -/
def getMember (v : JSON) (k : String) : Except String (Option JSON) :=
  match v with
  | .null => .error "TypeError: cannot read properties of null"
  | _ => .ok (jsonFieldOpt v k)

/-- Optional chain `base?.k` on an already-read value (`none` =
`undefined`): short-circuits on `undefined`/`null`, otherwise reads the
property. -/
def optChainGet (base : Option JSON) (k : String) : Option JSON :=
  match base with
  | none => none
  | some .null => none
  | some v => jsonFieldOpt v k

/-- `x ?? 0` followed by the `ToNumber` coercion `Math.min`/`Math.max`
apply. -/
def nullishNum (x : Option JSON) : JNum :=
  match x with
  | none => .val 0
  | some .null => .val 0
  | some v => toNumber v

/-- `clamp(value, min, max) = Math.max(min, Math.min(max, value))`. -/
def clamp (value lo hi : JNum) : JNum :=
  jmax lo (jmin hi value)

/-- `typeof x === 'string'` filter applied to an array's elements. -/
def jsStrFilter (xs : List JSON) : List String :=
  xs.filterMap (fun x => match x with | .str s => some s | _ => none)

structure EvalBreakdown where
  consistency_with_readme : JNum
  specificity : JNum
  depth_of_reasoning : JNum
  honesty_and_limitations : JNum
  deriving Repr, DecidableEq

structure EvaluationResult where
  understanding_score : JNum
  breakdown : EvalBreakdown
  flags : List String
  notes : List String
  confidence_level : String
  deriving Repr, DecidableEq

/-- `validateEvaluation`.  Every member access `parsed.x` in the source
throws exactly when `parsed` is `null` (with the same `TypeError`), and the
first such access comes first, so the throw is hoisted into a single guard;
the remaining field reads are total. -/
def validateEvaluation (parsed : JSON) : Except String EvaluationResult :=
  match parsed with
  | .null => .error "TypeError: cannot read properties of null"
  | _ =>
    let bd := jsonFieldOpt parsed "breakdown"
    let consistency :=
      clamp (nullishNum (optChainGet bd "consistency_with_readme")) (.val 0) (.val 25)
    let specificity :=
      clamp (nullishNum (optChainGet bd "specificity")) (.val 0) (.val 25)
    let depth :=
      clamp (nullishNum (optChainGet bd "depth_of_reasoning")) (.val 0) (.val 25)
    let honesty :=
      clamp (nullishNum (optChainGet bd "honesty_and_limitations")) (.val 0) (.val 25)
    let usBase : JNum :=
      match jsonFieldOpt parsed "understanding_score" with
      | none => jadd (jadd (jadd consistency specificity) depth) honesty
      | some .null => jadd (jadd (jadd consistency specificity) depth) honesty
      | some v => toNumber v
    let understanding := clamp usBase (.val 0) (.val 100)
    let flags :=
      match jsonFieldOpt parsed "flags" with
      | some (.arr xs) => jsStrFilter xs
      | _ => []
    let notes :=
      match jsonFieldOpt parsed "notes" with
      | some (.arr xs) => jsStrFilter xs
      | _ => ["No additional notes"]
    let confidence :=
      match jsonFieldOpt parsed "confidence_level" with
      | some (.str s) => if s == "low" || s == "medium" || s == "high" then s else "medium"
      | _ => "medium"
    .ok { understanding_score := understanding
          breakdown :=
            { consistency_with_readme := consistency
              specificity := specificity
              depth_of_reasoning := depth
              honesty_and_limitations := honesty }
          flags := flags
          notes := notes
          confidence_level := confidence }

/-- `createFallbackEvaluation`. -/
def createFallbackEvaluation (reason : String) : EvaluationResult :=
  { understanding_score := .val 0
    breakdown :=
      { consistency_with_readme := .val 0
        specificity := .val 0
        depth_of_reasoning := .val 0
        honesty_and_limitations := .val 0 }
    flags := ["evaluation_failed"]
    notes := [reason]
    confidence_level := "low" }

/-! ## Claim C5 -/

/-- `j` is a (non-NaN, finite) number within `[lo, hi]`. -/
def jnumInRange (j : JNum) (lo hi : ℚ) : Prop :=
  match j with
  | .val q => lo ≤ q ∧ q ≤ hi
  | _ => False

/-- The field is absent, `null`, or a number — the shapes under which the
clamp really lands in range. -/
def numOrNullOpt : Option JSON → Bool
  | none => true
  | some .null => true
  | some (.num _) => true
  | _ => false

theorem clamp_val_range (q lo hi : ℚ) (hlohi : lo ≤ hi) :
    clamp (.val q) (.val lo) (.val hi) = .val (max lo (min hi q)) ∧
    lo ≤ max lo (min hi q) ∧ max lo (min hi q) ≤ hi := by
  refine ⟨?_, le_max_left _ _, max_le hlohi (min_le_left _ _)⟩
  show jmax (.val lo) (jmin (.val hi) (.val q)) = _
  simp [jmax, jmin, min_def, max_def]

theorem clamp_nullish_25 (x : Option JSON) (h : numOrNullOpt x = true) :
    ∃ q : ℚ, clamp (nullishNum x) (.val 0) (.val 25) = .val q ∧ 0 ≤ q ∧ q ≤ 25 := by
  rcases x with _ | v
  · exact ⟨0, rfl, le_refl 0, by norm_num⟩
  · rcases v with _ | b | q | s | xs | fs
    · exact ⟨0, rfl, le_refl 0, by norm_num⟩
    · simp [numOrNullOpt] at h
    · obtain ⟨e, l, u⟩ := clamp_val_range q 0 25 (by norm_num)
      exact ⟨max 0 (min 25 q), e, l, u⟩
    · simp [numOrNullOpt] at h
    · simp [numOrNullOpt] at h
    · simp [numOrNullOpt] at h

theorem clamp_100_of_range (s : ℚ) (h0 : 0 ≤ s) (h1 : s ≤ 100) :
    clamp (.val s) (.val 0) (.val 100) = .val s := by
  show jmax (.val 0) (jmin (.val 100) (.val s)) = _
  simp only [jmin, jmax]
  split_ifs with ha hb hb <;> first
    | rfl
    | (congr 1; linarith)
    | (exfalso; linarith)

/-- For non-null input, `validateEvaluation` returns the normalized record. -/
theorem validateEvaluation_eq_ok (parsed : JSON) (hnn : parsed ≠ JSON.null) :
    validateEvaluation parsed = .ok
      { understanding_score :=
          clamp
            (match jsonFieldOpt parsed "understanding_score" with
              | none =>
                jadd (jadd (jadd
                  (clamp (nullishNum (optChainGet (jsonFieldOpt parsed "breakdown")
                    "consistency_with_readme")) (.val 0) (.val 25))
                  (clamp (nullishNum (optChainGet (jsonFieldOpt parsed "breakdown")
                    "specificity")) (.val 0) (.val 25)))
                  (clamp (nullishNum (optChainGet (jsonFieldOpt parsed "breakdown")
                    "depth_of_reasoning")) (.val 0) (.val 25)))
                  (clamp (nullishNum (optChainGet (jsonFieldOpt parsed "breakdown")
                    "honesty_and_limitations")) (.val 0) (.val 25))
              | some .null =>
                jadd (jadd (jadd
                  (clamp (nullishNum (optChainGet (jsonFieldOpt parsed "breakdown")
                    "consistency_with_readme")) (.val 0) (.val 25))
                  (clamp (nullishNum (optChainGet (jsonFieldOpt parsed "breakdown")
                    "specificity")) (.val 0) (.val 25)))
                  (clamp (nullishNum (optChainGet (jsonFieldOpt parsed "breakdown")
                    "depth_of_reasoning")) (.val 0) (.val 25)))
                  (clamp (nullishNum (optChainGet (jsonFieldOpt parsed "breakdown")
                    "honesty_and_limitations")) (.val 0) (.val 25))
              | some v => toNumber v)
            (.val 0) (.val 100)
        breakdown :=
          { consistency_with_readme :=
              clamp (nullishNum (optChainGet (jsonFieldOpt parsed "breakdown")
                "consistency_with_readme")) (.val 0) (.val 25)
            specificity :=
              clamp (nullishNum (optChainGet (jsonFieldOpt parsed "breakdown")
                "specificity")) (.val 0) (.val 25)
            depth_of_reasoning :=
              clamp (nullishNum (optChainGet (jsonFieldOpt parsed "breakdown")
                "depth_of_reasoning")) (.val 0) (.val 25)
            honesty_and_limitations :=
              clamp (nullishNum (optChainGet (jsonFieldOpt parsed "breakdown")
                "honesty_and_limitations")) (.val 0) (.val 25) }
        flags :=
          match jsonFieldOpt parsed "flags" with
          | some (.arr xs) => jsStrFilter xs
          | _ => []
        notes :=
          match jsonFieldOpt parsed "notes" with
          | some (.arr xs) => jsStrFilter xs
          | _ => ["No additional notes"]
        confidence_level :=
          match jsonFieldOpt parsed "confidence_level" with
          | some (.str s) =>
            if s == "low" || s == "medium" || s == "high" then s else "medium"
          | _ => "medium" } := by
  cases parsed <;> first | exact absurd rfl hnn | rfl

/-- **C5 (amended).** For every JSON value parsed from the evaluator's LLM
reply that is not `null` and whose breakdown sub-score fields and
`understanding_score` field are, where present, numbers or `null`,
`validateEvaluation` returns all four sub-scores in `[0,25]` and
`understanding_score` in `[0,100]`; and when the reply contains no
`understanding_score` field, the returned `understanding_score` equals the
sum of the four returned sub-scores.  (The unrestricted claim fails on
non-numeric sub-score values, which clamp to NaN, and on `null`, which makes
the property accesses throw.) -/
theorem validateEvaluation_normalizes (parsed : JSON)
    (hnn : parsed ≠ JSON.null)
    (h1 : numOrNullOpt (optChainGet (jsonFieldOpt parsed "breakdown")
      "consistency_with_readme") = true)
    (h2 : numOrNullOpt (optChainGet (jsonFieldOpt parsed "breakdown")
      "specificity") = true)
    (h3 : numOrNullOpt (optChainGet (jsonFieldOpt parsed "breakdown")
      "depth_of_reasoning") = true)
    (h4 : numOrNullOpt (optChainGet (jsonFieldOpt parsed "breakdown")
      "honesty_and_limitations") = true)
    (h5 : numOrNullOpt (jsonFieldOpt parsed "understanding_score") = true) :
    ∃ r : EvaluationResult, validateEvaluation parsed = .ok r ∧
      jnumInRange r.breakdown.consistency_with_readme 0 25 ∧
      jnumInRange r.breakdown.specificity 0 25 ∧
      jnumInRange r.breakdown.depth_of_reasoning 0 25 ∧
      jnumInRange r.breakdown.honesty_and_limitations 0 25 ∧
      jnumInRange r.understanding_score 0 100 ∧
      (jsonFieldOpt parsed "understanding_score" = none →
        r.understanding_score =
          jadd (jadd (jadd r.breakdown.consistency_with_readme
            r.breakdown.specificity) r.breakdown.depth_of_reasoning)
            r.breakdown.honesty_and_limitations) := by
  obtain ⟨q1, e1, l1, u1⟩ := clamp_nullish_25 _ h1
  obtain ⟨q2, e2, l2, u2⟩ := clamp_nullish_25 _ h2
  obtain ⟨q3, e3, l3, u3⟩ := clamp_nullish_25 _ h3
  obtain ⟨q4, e4, l4, u4⟩ := clamp_nullish_25 _ h4
  have hred := validateEvaluation_eq_ok parsed hnn
  rw [e1, e2, e3, e4] at hred
  rcases husf : jsonFieldOpt parsed "understanding_score" with _ | v
  · rw [husf] at hred
    have hsum : jadd (jadd (jadd (JNum.val q1) (JNum.val q2)) (JNum.val q3)) (JNum.val q4) =
        .val (q1 + q2 + q3 + q4) := rfl
    rw [hsum, clamp_100_of_range _ (by linarith) (by linarith)] at hred
    refine ⟨_, hred, ?_, ?_, ?_, ?_, ?_, ?_⟩ <;>
      simp [jnumInRange, *] <;> constructor <;> linarith
  · rw [husf] at h5
    rcases v with _ | b | q | s | xs | fs
    · rw [husf] at hred
      have hsum : jadd (jadd (jadd (JNum.val q1) (JNum.val q2)) (JNum.val q3)) (JNum.val q4) =
          .val (q1 + q2 + q3 + q4) := rfl
      rw [hsum, clamp_100_of_range _ (by linarith) (by linarith)] at hred
      refine ⟨_, hred, ?_, ?_, ?_, ?_, ?_, ?_⟩ <;>
        simp [jnumInRange, husf, *] <;> try (constructor <;> linarith)
    · simp [numOrNullOpt] at h5
    · rw [husf] at hred
      dsimp only at hred
      have htn : toNumber (JSON.num q) = .val q := rfl
      rw [htn] at hred
      obtain ⟨e, l, u⟩ := clamp_val_range q 0 100 (by norm_num)
      rw [e] at hred
      refine ⟨_, hred, ?_, ?_, ?_, ?_, ?_, ?_⟩ <;>
        simp [jnumInRange, husf, *] <;> try (constructor <;> linarith)
    · simp [numOrNullOpt] at h5
    · simp [numOrNullOpt] at h5
    · simp [numOrNullOpt] at h5

/-- A reply whose `breakdown.specificity` is a JSON object. -/
def c5CexParsed : JSON :=
  .obj [("breakdown", .obj [("specificity", .obj [])])]

/-- **C5 counterexample.** On a parsed reply whose `specificity` sub-score is
an object, `validateEvaluation` returns `specificity = NaN`
(`Math.min(25, {})` is NaN), which is not in `[0, 25]`; `understanding_score`
is NaN as well.  The claim's universal statement over all parsed JSON values
is therefore false. -/
theorem validateEvaluation_nan_cex :
    validateEvaluation c5CexParsed = .ok
      { understanding_score := .nan
        breakdown :=
          { consistency_with_readme := .val 0
            specificity := .nan
            depth_of_reasoning := .val 0
            honesty_and_limitations := .val 0 }
        flags := []
        notes := ["No additional notes"]
        confidence_level := "medium" } ∧
    ¬ jnumInRange JNum.nan 0 25 :=
  ⟨rfl, fun h => h⟩

/-- A well-formed reply: numeric sub-scores (some out of range), no
`understanding_score`. -/
def c5WitnessParsed : JSON :=
  .obj [("breakdown", .obj
          [("consistency_with_readme", .num 30),
           ("specificity", .num (-3)),
           ("depth_of_reasoning", .num 12)]),
        ("flags", .arr [.str "generic_language", .num 7]),
        ("confidence_level", .str "high")]

/-- Witness for C5 (amended): the theorem applied to a concrete reply. -/
theorem validateEvaluation_normalizes_witness :
    ∃ r : EvaluationResult, validateEvaluation c5WitnessParsed = .ok r ∧
      jnumInRange r.breakdown.consistency_with_readme 0 25 ∧
      jnumInRange r.breakdown.specificity 0 25 ∧
      jnumInRange r.breakdown.depth_of_reasoning 0 25 ∧
      jnumInRange r.breakdown.honesty_and_limitations 0 25 ∧
      jnumInRange r.understanding_score 0 100 ∧
      (jsonFieldOpt c5WitnessParsed "understanding_score" = none →
        r.understanding_score =
          jadd (jadd (jadd r.breakdown.consistency_with_readme
            r.breakdown.specificity) r.breakdown.depth_of_reasoning)
            r.breakdown.honesty_and_limitations) :=
  validateEvaluation_normalizes c5WitnessParsed
    (fun h => JSON.noConfusion h) rfl rfl rfl rfl rfl

/-! ## LLM analysis client (src/lib/llm.ts)

`JSON.parse` is a JavaScript builtin, not repository code; it is passed in
as an oracle `jsonParse : String → Option JSON` (`none` = the parse throws).
The HTTP call is likewise an oracle `Option LLMHttpResp` (`none` = the fetch
rejects); a 2xx body is carried as a `JSON` value. -/

structure LLMAnalysis where
  summary : List String
  technical_questions : List String
  notes : List String
  deriving Repr, DecidableEq

structure LLMHttpResp where
  ok : Bool
  status : Nat
  body : JSON

/-- One pass of `cleaned.replace(/```json?\n?/g, '')`: remove every
occurrence of three backticks, `jso`, an optional `n` and an optional
newline, scanning left to right without overlap. -/
def stripMarkers : List Char → List Char
  | '`' :: '`' :: '`' :: 'j' :: 's' :: 'o' :: 'n' :: '\n' :: rest => stripMarkers rest
  | '`' :: '`' :: '`' :: 'j' :: 's' :: 'o' :: 'n' :: rest => stripMarkers rest
  | '`' :: '`' :: '`' :: 'j' :: 's' :: 'o' :: '\n' :: rest => stripMarkers rest
  | '`' :: '`' :: '`' :: 'j' :: 's' :: 'o' :: rest => stripMarkers rest
  | c :: rest => c :: stripMarkers rest
  | [] => []

/-- `cleaned.replace(/```\n?$/g, '')`: remove a trailing fence (the two
suffix shapes are mutually exclusive). -/
def stripTrailingFence (l : List Char) : List Char :=
  if (("```\n".data).reverse).isPrefixOf l.reverse then l.take (l.length - 4)
  else if (("```".data).reverse).isPrefixOf l.reverse then l.take (l.length - 3)
  else l

/-- The string handed to `JSON.parse`: trim, then, when the reply starts
with a fence, strip the `json` fence markers and the trailing fence. -/
def cleanedContent (content : String) : String :=
  let cleaned : String := ⟨jsTrimList content.data⟩
  if strStartsWith cleaned "```" then
    ⟨stripTrailingFence (stripMarkers cleaned.data)⟩
  else cleaned

/-- `parseJSONResponse`: the `JSON.parse` failure is re-thrown with a fixed
message. -/
def parseJSONResponse (jsonParse : String → Option JSON) (content : String) :
    Except String JSON :=
  match jsonParse (cleanedContent content) with
  | some j => .ok j
  | none => .error "Failed to parse LLM response as JSON"

/-- `validateAnalysis`.  As in `validateEvaluation`, the member accesses
throw exactly when `parsed` is `null`, hoisted into one guard. -/
def validateAnalysis (parsed : JSON) : Except String LLMAnalysis :=
  match parsed with
  | .null => .error "TypeError: cannot read properties of null"
  | _ =>
    let summary :=
      match jsonFieldOpt parsed "summary" with
      | some (.arr xs) => jsStrFilter (xs.take 5)
      | _ => ["Analysis unavailable"]
    let questions :=
      match jsonFieldOpt parsed "technical_questions" with
      | some (.arr xs) => jsStrFilter (xs.take 3)
      | _ => ["What is this project?", "How does it work?", "What are the key features?"]
    let questions := questions ++
      List.replicate (3 - questions.length) "Additional technical details needed"
    let notes :=
      match jsonFieldOpt parsed "notes" with
      | some (.arr xs) => jsStrFilter (xs.take 4)
      | _ => ["No additional notes"]
    .ok { summary := if summary.length > 0 then summary else ["Analysis unavailable"]
          technical_questions := questions.take 3
          notes := if notes.length > 0 then notes else ["No additional notes"] }

/-- The fallback returned when no API key is configured. -/
def analyzeNoKeyFallback : LLMAnalysis :=
  { summary := ["Repository analysis unavailable - Gemini API key not configured"]
    technical_questions :=
      ["What is the primary purpose of this repository?",
       "What are the main technologies used?",
       "How is the project structured?"]
    notes := ["LLM analysis unavailable"] }

/-- The fallback returned by the `catch` of `analyzeRepository`. -/
def analyzeCatchFallback (owner repo : String) (files : List String) : LLMAnalysis :=
  { summary :=
      ["Repository: " ++ owner ++ "/" ++ repo,
       "Files: " ++ toString files.length,
       "Detailed analysis unavailable"]
    technical_questions :=
      ["What is the primary purpose of this repository?",
       "What are the main dependencies and technologies?",
       "How is testing and CI/CD configured?"]
    notes := ["Automated analysis failed - using fallback"] }

/-- Optional-chained index `base?.[i]` (indexing a string yields its i-th
character as a one-character string, as in JavaScript). -/
def optIndex (base : Option JSON) (i : Nat) : Option JSON :=
  match base with
  | none => none
  | some .null => none
  | some (.arr xs) => xs[i]?
  | some (.str s) =>
    match s.data[i]? with
    | some c => some (.str ⟨[c]⟩)
    | none => none
  | some _ => none

/-- JavaScript truthiness of a possibly-undefined value. -/
def jsTruthyOpt : Option JSON → Bool
  | none => false
  | some .null => false
  | some (.bool b) => b
  | some (.num q) => !(q == 0)
  | some (.str s) => !(s == "")
  | some (.arr _) => true
  | some (.obj _) => true

/-- The body of the `try` block of `analyzeRepository`: the fetch, the
`response.ok` check (the stringified error body appended to the thrown
message is never inspected and is omitted), the optional-chain content
extraction, the truthiness check, JSON parsing and validation. -/
def tryAnalyze (jsonParse : String → Option JSON) (resp : Option LLMHttpResp) :
    Except String LLMAnalysis :=
  match resp with
  | none => .error "TypeError: fetch failed"
  | some r =>
    if !r.ok then .error ("Gemini API error: " ++ toString r.status)
    else
      match getMember r.body "candidates" with
      | .error e => .error e
      | .ok candidates =>
        let content :=
          optChainGet (optIndex (optChainGet (optChainGet
            (optIndex candidates 0) "content") "parts") 0) "text"
        if !(jsTruthyOpt content) then .error "No response from Gemini"
        else
          match content with
          | some (.str s) =>
            match parseJSONResponse jsonParse s with
            | .error e => .error e
            | .ok parsed => validateAnalysis parsed
          | _ => .error "TypeError: content.trim is not a function"

/-- `analyzeRepository`: the missing/empty-key early return, then the `try`
body with its `catch` mapping any thrown error to the fixed fallback. -/
def analyzeRepository (jsonParse : String → Option JSON) (apiKey : Option String)
    (readme : String) (files : List String) (owner repo : String)
    (resp : Option LLMHttpResp) : Except String LLMAnalysis :=
  match apiKey with
  | none => .ok analyzeNoKeyFallback
  | some key =>
    if key == "" then .ok analyzeNoKeyFallback
    else
      match tryAnalyze jsonParse resp with
      | .ok a => .ok a
      | .error _ => .ok (analyzeCatchFallback owner repo files)

/-! ## Claim C6 -/

theorem stripMarkers_cons_ne (c : Char) (rest : List Char) (hc : c ≠ '`') :
    stripMarkers (c :: rest) = c :: stripMarkers rest := by
  unfold stripMarkers
  split <;> simp_all
  rw [stripMarkers.eq_def]

theorem stripMarkers_append_no_bt (l m : List Char) (h : '`' ∉ l) :
    stripMarkers (l ++ m) = l ++ stripMarkers m := by
  induction l with
  | nil => simp
  | cons c r ih =>
    have hc : c ≠ '`' := fun hm => h (by rw [hm]; simp)
    rw [List.cons_append, stripMarkers_cons_ne c (r ++ m) hc,
      ih (fun hm => h (by simp [hm]))]
    rfl

/-- The fence-stripping contract: a `'''json`-fenced payload with no
backticks of its own comes out as the payload (plus the newline that
preceded the closing fence). -/
theorem jsTrimList_of_ends (l : List Char) (c1 : Char) (r1 : List Char)
    (c2 : Char) (r2 : List Char)
    (h1 : l = c1 :: r1) (h2 : l.reverse = c2 :: r2)
    (hc1 : isJsWsChar c1 = false) (hc2 : isJsWsChar c2 = false) :
    jsTrimList l = l := by
  have e1 : l.dropWhile isJsWsChar = l := by
    rw [h1, List.dropWhile_cons, hc1]
    simp
  have e2 : l.reverse.dropWhile isJsWsChar = l.reverse := by
    rw [h2, List.dropWhile_cons, hc2]
    simp
  unfold jsTrimList
  rw [e1, e2, List.reverse_reverse]

theorem cleanedContent_fenced (s : String) (h : '`' ∉ s.data) :
    cleanedContent ("```json\n" ++ s ++ "\n```") = s ++ "\n" := by
  have hdata : ("```json\n" ++ s ++ "\n```").data =
      '`' :: '`' :: '`' :: 'j' :: 's' :: 'o' :: 'n' :: '\n' :: (s.data ++ "\n```".data) := by
    simp [String.data_append]
  obtain ⟨t, ht⟩ : ∃ t, ("```json\n" ++ s ++ "\n```").data.reverse = '`' :: t := by
    rw [hdata]
    rw [show ('`' :: '`' :: '`' :: 'j' :: 's' :: 'o' :: 'n' :: '\n' ::
      (s.data ++ "\n```".data)) =
      ('`' :: '`' :: '`' :: 'j' :: 's' :: 'o' :: 'n' :: '\n' :: s.data) ++ "\n```".data
      by simp]
    rw [List.reverse_append,
      show ("\n```".data).reverse = '`' :: '`' :: '`' :: ['\n'] from rfl]
    exact ⟨_, rfl⟩
  have htrim : jsTrimList (("```json\n" ++ s ++ "\n```").data) =
      ("```json\n" ++ s ++ "\n```").data :=
    jsTrimList_of_ends _ '`' _ '`' t hdata ht rfl rfl
  have hmark : stripMarkers (("```json\n" ++ s ++ "\n```").data) =
      s.data ++ "\n```".data := by
    rw [hdata]
    show stripMarkers ('`' :: '`' :: '`' :: 'j' :: 's' :: 'o' :: 'n' :: '\n' ::
      (s.data ++ "\n```".data)) = _
    rw [stripMarkers]
    rw [stripMarkers_append_no_bt s.data ("\n```".data) h]
    rfl
  have htail : stripTrailingFence (s.data ++ "\n```".data) = s.data ++ ['\n'] := by
    unfold stripTrailingFence
    have hr : (s.data ++ "\n```".data).reverse =
        '`' :: '`' :: '`' :: '\n' :: s.data.reverse := by
      simp [List.reverse_append]
    rw [if_neg ?hn, if_pos ?hy]
    case hn =>
      rw [hr]
      simp [List.isPrefixOf]
    case hy =>
      rw [hr]
      simp [List.isPrefixOf]
    have hlen : (s.data ++ "\n```".data).length = s.data.length + 4 := by simp
    rw [hlen]
    have : s.data.length + 4 - 3 = s.data.length + 1 := by omega
    rw [this, List.take_append_eq_append_take,
      List.take_of_length_le (by omega), show s.data.length + 1 - s.data.length = 1 by omega]
    rfl
  unfold cleanedContent
  rw [if_pos ?hstart]
  case hstart =>
    show ("```".data).isPrefixOf (String.mk (jsTrimList _)).data = true
    rw [show (String.mk (jsTrimList (("```json\n" ++ s ++ "\n```").data))).data =
      jsTrimList (("```json\n" ++ s ++ "\n```").data) from rfl, htrim, hdata]
    simp [List.isPrefixOf]
  show String.mk (stripTrailingFence (stripMarkers
    (String.mk (jsTrimList (("```json\n" ++ s ++ "\n```").data))).data)) = s ++ "\n"
  rw [show (String.mk (jsTrimList (("```json\n" ++ s ++ "\n```").data))).data =
    jsTrimList (("```json\n" ++ s ++ "\n```").data) from rfl, htrim, hmark, htail]
  show String.mk (s.data ++ "\n".data) = s ++ "\n"
  rfl

/-- The wrapped 2xx reply whose single candidate text is `content`. -/
def mkLLMResp (content : String) : LLMHttpResp :=
  { ok := true
    status := 200
    body := .obj [("candidates", .arr
      [.obj [("content", .obj [("parts", .arr
        [.obj [("text", .str content)]])])]])] }

/-- **C6.** `analyzeRepository` never raises: it returns `ok` on every
input; a reply wrapped in triple-backtick `json` fences has the fence
markers stripped before `JSON.parse` runs; when parsing of the (cleaned)
reply still fails the fixed catch fallback is returned; and when the API
credential is missing the fixed no-key fallback is returned. -/
theorem analyzeRepository_resilient :
    (∀ (jp : String → Option JSON) (key : Option String) (readme : String)
      (files : List String) (owner repo : String) (resp : Option LLMHttpResp),
      (analyzeRepository jp key readme files owner repo resp).isOk = true) ∧
    (∀ (jp : String → Option JSON) (s : String), '`' ∉ s.data →
      parseJSONResponse jp ("```json\n" ++ s ++ "\n```") =
        match jp (s ++ "\n") with
        | some j => .ok j
        | none => .error "Failed to parse LLM response as JSON") ∧
    (∀ (jp : String → Option JSON) (key readme : String) (files : List String)
      (owner repo content : String), key ≠ "" →
      jp (cleanedContent content) = none →
      analyzeRepository jp (some key) readme files owner repo (some (mkLLMResp content)) =
        .ok (analyzeCatchFallback owner repo files)) ∧
    (∀ (jp : String → Option JSON) (readme : String) (files : List String)
      (owner repo : String) (resp : Option LLMHttpResp),
      analyzeRepository jp none readme files owner repo resp = .ok analyzeNoKeyFallback) := by
  refine ⟨?_, ?_, ?_, ?_⟩
  · intro jp key readme files owner repo resp
    rcases key with _ | key
    · rfl
    · rcases hkey : key == "" with _ | _
      · rcases htry : tryAnalyze jp resp with e | a <;>
          simp [analyzeRepository, hkey, htry, Except.isOk, Except.toBool]
      · simp [analyzeRepository, hkey, Except.isOk, Except.toBool]
  · intro jp s h
    rw [parseJSONResponse, cleanedContent_fenced s h]
  · intro jp key readme files owner repo content hkey hparse
    have hkey' : (key == "") = false := by
      cases hq : key == "" with
      | false => rfl
      | true => exact absurd (by simpa using hq) hkey
    have hextract : tryAnalyze jp (some (mkLLMResp content)) =
        (if !(jsTruthyOpt (some (.str content))) then
          Except.error "No response from Gemini"
        else
          match parseJSONResponse jp content with
          | .error e => .error e
          | .ok parsed => validateAnalysis parsed) := rfl
    rcases hc : content == "" with _ | _
    · simp [analyzeRepository, hkey', hextract, jsTruthyOpt, hc, parseJSONResponse, hparse]
    · simp [analyzeRepository, hkey', hextract, jsTruthyOpt, hc]
  · intro jp readme files owner repo resp
    rfl

/-- Witness for C6: the fence and parse-failure conjuncts instantiated at a
concrete payload and a concrete (always-failing) parse oracle. -/
theorem analyzeRepository_resilient_witness :
    parseJSONResponse (fun _ => none) ("```json\n" ++ "[1, 2]" ++ "\n```") =
      .error "Failed to parse LLM response as JSON" ∧
    analyzeRepository (fun _ => none) (some "k") "" [] "o" "r" (some (mkLLMResp "x")) =
      .ok (analyzeCatchFallback "o" "r" []) := by
  constructor
  · rw [analyzeRepository_resilient.2.1 (fun _ => none) "[1, 2]" (by decide)]
  · exact analyzeRepository_resilient.2.2.1 (fun _ => none) "k" "" [] "o" "r" "x"
      (by decide) rfl

/-! ## Best-effort context fetching (src/lib/github.ts, `fetchRepoContext`)

Per-file HTTP responses are an oracle from path to `Option ContentsResp`
(`none` = the fetch itself rejects).  A 2xx body is either a directory
listing (a JSON array) or a file object whose content is carried already
base64-decoded — decoding is irrelevant to the failure-handling claims. -/

inductive ContentsBody where
  | dir
  | file (content : String)
  deriving Repr, DecidableEq

structure ContentsResp where
  status : Nat
  body : ContentsBody
  deriving Repr, DecidableEq

/-- `fetchFileContent`: 404 is an empty result, 403 throws the rate-limit
error, other non-2xx throw a generic error, a directory body is an empty
result; its `catch` re-throws every `Error`, so thrown errors propagate. -/
def fetchFileContent (resp : Option ContentsResp) : Except String String :=
  match resp with
  | none => .error "TypeError: fetch failed"
  | some r =>
    if r.status == 404 then .ok ""
    else if !(respOk r.status) then
      if r.status == 403 then .error rateLimitMsg
      else .error ("GitHub API error: " ++ toString r.status)
    else
      match r.body with
      | .dir => .ok ""
      | .file c => .ok c

/-- The `PRIORITY_PATTERNS` regex `test`s.  The three `$`-anchored patterns
are suffix tests; `next\.config\.` is a substring test; each
`dir\/.*\.(ts|tsx|js|jsx)$` is equivalent to containing `dir/` and ending in
one of the four extensions, because `dir/` (which contains `/`) can never
overlap the extension suffix (which does not). -/
def hasSourceExt (file : String) : Bool :=
  strEndsWith file ".ts" || strEndsWith file ".tsx" ||
  strEndsWith file ".js" || strEndsWith file ".jsx"

def hasPriorityPattern (file : String) : Bool :=
  strEndsWith file "package.json" ||
  strEndsWith file "tsconfig.json" ||
  strIncludes file "next.config." ||
  (strIncludes file "src/" && hasSourceExt file) ||
  (strIncludes file "app/" && hasSourceExt file) ||
  (strIncludes file "lib/" && hasSourceExt file) ||
  (strIncludes file "components/" && hasSourceExt file)

/-- The mapped function of each batch: any thrown error is caught and
becomes `null` (`none`), and falsy (empty) content also becomes `null`;
otherwise the file-path header plus the first 5000 characters. -/
def perFileFetch (oracle : String → Option ContentsResp) (file : String) :
    Option String :=
  match fetchFileContent (oracle file) with
  | .error _ => none
  | .ok content =>
    if content == "" then none
    else some ("\n\n--- FILE: " ++ file ++ " ---\n" ++ strTake content 5000)

/-- The batch loop: `Promise.all` over slices of 5 (`BATCH_SIZE`), keeping
the non-null results in order; a last batch of fewer than 5 files is the
final slice. -/
def batchLoop (oracle : String → Option ContentsResp) : List String → List String
  | [] => []
  | f1 :: f2 :: f3 :: f4 :: f5 :: rest =>
    ([f1, f2, f3, f4, f5].filterMap (perFileFetch oracle)) ++ batchLoop oracle rest
  | l => l.filterMap (perFileFetch oracle)

/-- `fetchRepoContext`: filter and cap the priority files (`priorityFiles`
in the source), fetch in batches, join with newlines.  Every per-file error
is caught inside the batch, so the promise always resolves — the `.ok`
records that no exception escapes. -/
def fetchRepoContext (oracle : String → Option ContentsResp)
    (files : List String) : Except String String :=
  .ok (String.intercalate "\n"
    (batchLoop oracle ((files.filter hasPriorityPattern).take 30)))

/-! ## Claim C7 -/

/-- Replace every response whose fetch would throw by a plain 404 (file
absent). -/
def maskOracle (oracle : String → Option ContentsResp) :
    String → Option ContentsResp :=
  fun f =>
    match fetchFileContent (oracle f) with
    | .error _ => some { status := 404, body := .dir }
    | .ok _ => oracle f

theorem perFileFetch_mask (oracle : String → Option ContentsResp) (f : String) :
    perFileFetch (maskOracle oracle) f = perFileFetch oracle f := by
  unfold perFileFetch maskOracle
  rcases h : fetchFileContent (oracle f) with e | c
  · simp [h, fetchFileContent]
  · simp [h]

theorem batchLoop_mask (oracle : String → Option ContentsResp) :
    ∀ (n : Nat) (l : List String), l.length ≤ n →
      batchLoop (maskOracle oracle) l = batchLoop oracle l := by
  intro n
  induction n with
  | zero =>
    intro l h
    have : l = [] := List.eq_nil_of_length_eq_zero (by omega)
    rw [this]
    rfl
  | succ n ih =>
    intro l h
    match l with
    | [] => rfl
    | [f1] => exact List.filterMap_congr (fun x _ => perFileFetch_mask oracle x)
    | [f1, f2] => exact List.filterMap_congr (fun x _ => perFileFetch_mask oracle x)
    | [f1, f2, f3] => exact List.filterMap_congr (fun x _ => perFileFetch_mask oracle x)
    | [f1, f2, f3, f4] =>
      exact List.filterMap_congr (fun x _ => perFileFetch_mask oracle x)
    | f1 :: f2 :: f3 :: f4 :: f5 :: rest =>
      show ([f1, f2, f3, f4, f5].filterMap (perFileFetch (maskOracle oracle))) ++
          batchLoop (maskOracle oracle) rest = _
      rw [List.filterMap_congr (fun x _ => perFileFetch_mask oracle x),
        ih rest (by simp at h; omega)]
      rfl

/-- The oracle of the counterexample: `package.json` succeeds, `src/a.ts` is
rate-limited. -/
def c7Oracle : String → Option ContentsResp := fun f =>
  if f == "package.json" then some { status := 200, body := .file "PKG" }
  else if f == "src/a.ts" then some { status := 403, body := .dir }
  else none

/-- **C7 counterexample.** The fetch of `src/a.ts` throws the rate-limit
error, yet `fetchRepoContext` returns normally with that file merely
omitted: the per-file `catch` swallows the rate-limit error instead of
propagating it. -/
theorem fetchRepoContext_rateLimit_cex :
    fetchFileContent (c7Oracle "src/a.ts") = .error rateLimitMsg ∧
    fetchRepoContext c7Oracle ["package.json", "src/a.ts"] =
      .ok "\n\n--- FILE: package.json ---\nPKG" :=
  ⟨rfl, rfl⟩

/-- **C7 (amended).** In `fetchRepoContext`'s batched per-file fetching,
every single-file failure — the rate-limit (403) error included — is
swallowed: the failing file is omitted exactly as if it were absent (the
result equals that of an oracle with every failing fetch replaced by a 404),
and the batch never aborts (the result is always `ok`). -/
theorem fetchRepoContext_swallows_all (oracle : String → Option ContentsResp)
    (files : List String) :
    fetchRepoContext oracle files = fetchRepoContext (maskOracle oracle) files ∧
    (fetchRepoContext oracle files).isOk = true := by
  refine ⟨?_, rfl⟩
  unfold fetchRepoContext
  rw [batchLoop_mask oracle ((files.filter hasPriorityPattern).take 30).length _
    (le_refl _)]


/-! ## Request handlers (validation prefix)

Both `POST` handlers are modelled up to the end of input validation: the
claim concerns the 400 responses, which are decided before any network I/O.
Destructuring a `null` body throws, which the outer `catch` turns into a
500. -/

inductive AnalyzeValidation where
  | reject (status : Nat) (error : String)
  | proceed (repo_url : String)
  deriving Repr, DecidableEq

inductive EvaluateValidation where
  | reject (status : Nat) (error : String)
  | proceed (readme question answer : String)
  deriving Repr, DecidableEq

/-- `typeof x === 'string'`. -/
def isStrOpt : Option JSON → Bool
  | some (.str _) => true
  | _ => false

def getStrOpt : Option JSON → String
  | some (.str s) => s
  | _ => ""

/-- Validation prefix of `POST /api/v1/analyze-repo`:
`if (!repo_url || typeof repo_url !== 'string')` → 400. -/
def analyzeRepoValidate (body : JSON) : AnalyzeValidation :=
  match body with
  | .null => .reject 500 "Internal server error"
  | _ =>
    let repoUrl := jsonFieldOpt body "repo_url"
    if !(jsTruthyOpt repoUrl) || !(isStrOpt repoUrl) then
      .reject 400 "Missing or invalid repo_url field"
    else .proceed (getStrOpt repoUrl)

/-- Validation prefix of `POST /api/v1/evaluate-answer`: the three
`!x || typeof x !== 'string'` checks in order. -/
def evaluateAnswerValidate (body : JSON) : EvaluateValidation :=
  match body with
  | .null => .reject 500 "Internal server error"
  | _ =>
    let readme := jsonFieldOpt body "readme"
    if !(jsTruthyOpt readme) || !(isStrOpt readme) then
      .reject 400 "Missing or invalid \x22readme\x22 field"
    else
      let question := jsonFieldOpt body "question"
      if !(jsTruthyOpt question) || !(isStrOpt question) then
        .reject 400 "Missing or invalid \x22question\x22 field"
      else
        let answer := jsonFieldOpt body "answer"
        if !(jsTruthyOpt answer) || !(isStrOpt answer) then
          .reject 400 "Missing or invalid \x22answer\x22 field"
        else .proceed (getStrOpt readme) (getStrOpt question) (getStrOpt answer)

def evaluateStatus : EvaluateValidation → Option Nat
  | .reject s _ => some s
  | .proceed _ _ _ => none

/-- **C10.** Both endpoints reject empty-string fields with a 400: a present
`repo_url` (analyze-repo) or `readme`/`question`/`answer` (evaluate-answer)
field of string type whose value is the empty string fails the truthiness
check. -/
theorem empty_string_fields_rejected :
    (∀ body : JSON, jsonFieldOpt body "repo_url" = some (.str "") →
      analyzeRepoValidate body = .reject 400 "Missing or invalid repo_url field") ∧
    (∀ body : JSON, jsonFieldOpt body "readme" = some (.str "") →
      evaluateAnswerValidate body =
        .reject 400 "Missing or invalid \x22readme\x22 field") ∧
    (∀ body : JSON, jsonFieldOpt body "question" = some (.str "") →
      evaluateStatus (evaluateAnswerValidate body) = some 400) ∧
    (∀ body : JSON, jsonFieldOpt body "answer" = some (.str "") →
      evaluateStatus (evaluateAnswerValidate body) = some 400) := by
  refine ⟨?_, ?_, ?_, ?_⟩
  · intro body h
    cases body <;> simp [jsonFieldOpt] at h <;>
      simp [analyzeRepoValidate, jsonFieldOpt, h, jsTruthyOpt]
  · intro body h
    cases body <;> simp [jsonFieldOpt] at h <;>
      simp [evaluateAnswerValidate, jsonFieldOpt, h, jsTruthyOpt]
  · intro body h
    cases body <;> simp [jsonFieldOpt] at h
    rename_i fields
    cases hr : !(jsTruthyOpt (lookupField fields "readme")) ||
        !(isStrOpt (lookupField fields "readme")) with
    | true => simp [evaluateAnswerValidate, jsonFieldOpt, hr, evaluateStatus]
    | false =>
      simp only [evaluateAnswerValidate, jsonFieldOpt]
      rw [hr, h]
      simp [jsTruthyOpt, evaluateStatus]
  · intro body h
    cases body <;> simp [jsonFieldOpt] at h
    rename_i fields
    cases hr : !(jsTruthyOpt (lookupField fields "readme")) ||
        !(isStrOpt (lookupField fields "readme")) with
    | true => simp [evaluateAnswerValidate, jsonFieldOpt, hr, evaluateStatus]
    | false =>
      cases hq : !(jsTruthyOpt (lookupField fields "question")) ||
          !(isStrOpt (lookupField fields "question")) with
      | true =>
        simp only [evaluateAnswerValidate, jsonFieldOpt]
        rw [hr, hq]
        simp [evaluateStatus]
      | false =>
        simp only [evaluateAnswerValidate, jsonFieldOpt]
        rw [hr, hq, h]
        simp [jsTruthyOpt, evaluateStatus]

/-- Witness for C10: the theorem applied to concrete request bodies whose
fields are present, of string type, and empty. -/
theorem empty_string_fields_rejected_witness :
    analyzeRepoValidate (.obj [("repo_url", .str "")]) =
      .reject 400 "Missing or invalid repo_url field" ∧
    evaluateAnswerValidate (.obj [("readme", .str "")]) =
      .reject 400 "Missing or invalid \x22readme\x22 field" ∧
    evaluateStatus (evaluateAnswerValidate
      (.obj [("readme", .str "r"), ("question", .str "")])) = some 400 ∧
    evaluateStatus (evaluateAnswerValidate
      (.obj [("readme", .str "r"), ("question", .str "q"), ("answer", .str "")])) =
      some 400 :=
  ⟨empty_string_fields_rejected.1 _ rfl,
   empty_string_fields_rejected.2.1 _ rfl,
   empty_string_fields_rejected.2.2.1 _ rfl,
   empty_string_fields_rejected.2.2.2 _ rfl⟩

end RepoAnalyzer
